import Mathlib

/-!
Shallow embedding of the rust-ecs asset-loading pipeline
(`src/graphics/obj.rs`, `src/graphics/mesh.rs`, `src/graphics/texture.rs`).

Modelling conventions:
* `f32` scalars are idealized as exact rationals, implemented by the
  in-file normalized-fraction type `Frac` so that concrete runs reduce
  inside the kernel; the square root used by vector normalization has no
  exact rational counterpart and is passed explicitly as a function
  argument, mirroring the call into the `cgmath` library.
* Rust panics (`panic!`, `expect`, `debug_assert!`, integer underflow and
  index-out-of-bounds) are modelled as `Except LoadError` failures,
  classified by the error kind each panic corresponds to.
* The process-wide OpenGL binding state is modelled explicitly as a
  `GLState` value threaded through the operations that mutate it.
-/

/-- Load-time failure kinds: the classification of the panics in the
source (malformed numeric fields, non-triangular faces, unknown tokens,
unknown materials, out-of-range array accesses). -/
inductive LoadError where
  | malformedNumber : LoadError
  | unsupportedTopology : LoadError
  | unknownToken : LoadError
  | unknownMaterial : LoadError
  | arrayIndex : LoadError
  deriving DecidableEq, Repr

/-- Exact rational scalar idealizing `f32`: a fraction kept in lowest
terms with a positive denominator, so that equal values are structurally
equal and all arithmetic reduces inside the kernel. -/
structure Frac where
  num : Int
  den : Nat
  deriving DecidableEq, Repr

/-- Puts a fraction in lowest terms (a zero denominator, which no
modelled computation produces, is sent to zero). -/
def Frac.reduce (n : Int) (d : Nat) : Frac :=
  if d = 0 then ⟨0, 1⟩
  else
    let g := Nat.gcd n.natAbs d
    ⟨Int.tdiv n (Int.ofNat g), d / g⟩

/-- Embeds a natural number. -/
def Frac.ofNat (n : Nat) : Frac := ⟨Int.ofNat n, 1⟩

instance (n : Nat) : OfNat Frac n := ⟨Frac.ofNat n⟩

/-- Addition of exact rationals. -/
def Frac.add (a b : Frac) : Frac :=
  Frac.reduce (a.num * (b.den : Int) + b.num * (a.den : Int)) (a.den * b.den)

instance : Add Frac := ⟨Frac.add⟩

/-- Negation of an exact rational. -/
def Frac.neg (a : Frac) : Frac := ⟨-a.num, a.den⟩

instance : Neg Frac := ⟨Frac.neg⟩

/-- Subtraction of exact rationals. -/
def Frac.sub (a b : Frac) : Frac := Frac.add a (Frac.neg b)

instance : Sub Frac := ⟨Frac.sub⟩

/-- Multiplication of exact rationals. -/
def Frac.mul (a b : Frac) : Frac :=
  Frac.reduce (a.num * b.num) (a.den * b.den)

instance : Mul Frac := ⟨Frac.mul⟩

/-- Reciprocal of an exact rational (zero maps to zero, as in Lean's own
field conventions; no modelled computation divides by zero on the inputs
the claims exercise). -/
def Frac.inv (a : Frac) : Frac :=
  if a.num = 0 then ⟨0, 1⟩
  else if 0 < a.num then ⟨(a.den : Int), a.num.natAbs⟩
  else ⟨-(a.den : Int), a.num.natAbs⟩

instance : Div Frac := ⟨fun a b => Frac.mul a (Frac.inv b)⟩

/-- The power of ten used to scale decimal literals. -/
def Frac.pow10 (n : Nat) : Frac := ⟨(10 : Int) ^ n, 1⟩

/-- Three-component vector over idealized `f32` scalars
(`cgmath::Vector3<f32>` and `cgmath::Point3<f32>`). -/
structure Vec3 where
  x : Frac
  y : Frac
  z : Frac
  deriving DecidableEq, Repr

/-- Two-component vector over idealized `f32` scalars
(`cgmath::Vector2<f32>`). -/
structure Vec2 where
  x : Frac
  y : Frac
  deriving DecidableEq, Repr

/-- `Vector2::zero()`. -/
def Vec2.zero : Vec2 := ⟨0, 0⟩

/-- Componentwise subtraction of `cgmath` vectors. -/
def Vec3.sub (a b : Vec3) : Vec3 := ⟨a.x - b.x, a.y - b.y, a.z - b.z⟩

/-- `cgmath`'s cross product. -/
def Vec3.cross (a b : Vec3) : Vec3 :=
  ⟨a.y * b.z - a.z * b.y, a.z * b.x - a.x * b.z, a.x * b.y - a.y * b.x⟩

/-- `cgmath`'s dot product. -/
def Vec3.dot (a b : Vec3) : Frac := a.x * b.x + a.y * b.y + a.z * b.z

/-- Scalar multiplication of a `cgmath` vector. -/
def Vec3.smul (c : Frac) (v : Vec3) : Vec3 := ⟨c * v.x, c * v.y, c * v.z⟩

/-- `cgmath`'s `InnerSpace::normalize`: the vector scaled by the
reciprocal of its magnitude `sqrt (dot v v)`.  The square root is the one
operation with no exact rational counterpart, so it is an explicit
function argument. -/
def Vec3.normalize (sq : Frac → Frac) (v : Vec3) : Vec3 :=
  Vec3.smul (1 / sq (Vec3.dot v v)) v

/-- Tests for an ASCII decimal digit (codes 48 through 57). -/
def isDigitChar (c : Char) : Bool := 48 ≤ c.toNat && c.toNat ≤ 57

/-- Accumulates decimal digits with the overflow check Rust's
`u32::from_str` performs at every step: any non-digit or any value past
`u32::MAX` is a parse failure. -/
def parseU32Digits : List Char → Nat → Option Nat
  | [], acc => some acc
  | c :: rest, acc =>
    if isDigitChar c then
      let v := acc * 10 + (c.toNat - 48)
      if v ≤ 4294967295 then parseU32Digits rest v else none
    else none

/-- Rust's `u32::from_str` on a character list: an optional leading plus
sign (code 43), then one or more ASCII digits, rejecting overflow past
`u32::MAX`. -/
def parseU32Chars (cs : List Char) : Option Nat :=
  let cs2 := match cs with
    | c :: rest => if c.toNat = 43 then rest else cs
    | [] => []
  match cs2 with
  | [] => none
  | _ => parseU32Digits cs2 0

/-- Rust's `u32::from_str`. -/
def parseU32 (s : String) : Option Nat := parseU32Chars s.toList

/-- Splits the longest leading run of ASCII digits off a character list. -/
def takeDigits : List Char → List Char × List Char
  | [] => ([], [])
  | c :: rest =>
    if isDigitChar c then
      let p := takeDigits rest
      (c :: p.1, p.2)
    else ([], c :: rest)

/-- Numeric value of a digit run. -/
def digitsToNat (ds : List Char) : Nat :=
  ds.foldl (fun acc c => acc * 10 + (c.toNat - 48)) 0

/-- Exact rational value of a decimal float literal with integer part,
fraction part, and signed decimal exponent. -/
def decimalValue (neg : Bool) (ipart fpart : List Char) (esign : Bool)
    (edigits : List Char) : Frac :=
  let mant : Frac :=
    Frac.ofNat (digitsToNat ipart) +
      Frac.ofNat (digitsToNat fpart) / Frac.pow10 fpart.length
  let ex : Nat := digitsToNat edigits
  let scaled := if esign then mant / Frac.pow10 ex else mant * Frac.pow10 ex
  if neg then -scaled else scaled

/-- The characters of the non-finite `f32` literals, lower case. -/
def infChars : List Char := "inf".toList

/-- The characters of the long non-finite `f32` literal, lower case. -/
def infinityChars : List Char := "infinity".toList

/-- The characters of the not-a-number `f32` literal, lower case. -/
def nanChars : List Char := "nan".toList

/-- Rust's `f32::from_str` grammar: an optional sign; then, ASCII
case-insensitively, `inf`, `infinity` or `nan`, or a decimal literal
`digits [. digits] [(e|E) [sign] digits]` with at least one mantissa
digit and, when the exponent marker is present, at least one exponent
digit and nothing after it.  Finite literals are idealized as exact
rationals (no rounding or overflow to infinity); the non-finite values
`inf` and `nan`, which `from_str` does accept, have no rational
counterpart and are idealized as 0.  No claim depends on parsed numeric
values, only on which strings parse. -/
def parseF32 (s : String) : Option Frac :=
  let cs := s.toList
  let sgn := match cs with
    | c :: rest =>
      if c.toNat = 45 then (true, rest)
      else if c.toNat = 43 then (false, rest) else (false, cs)
    | [] => (false, [])
  let neg := sgn.1
  let cs2 := sgn.2
  let low := cs2.map Char.toLower
  if low = infChars ∨ low = infinityChars ∨ low = nanChars then some 0
  else
    let ip := takeDigits cs2
    let ipart := ip.1
    let fp := match ip.2 with
      | c :: rest => if c.toNat = 46 then takeDigits rest else ([], ip.2)
      | [] => ([], [])
    let fpart := fp.1
    if ipart = [] ∧ fpart = [] then none
    else
      match fp.2 with
      | [] => some (decimalValue neg ipart fpart false [])
      | c :: rest =>
        if c.toNat = 101 ∨ c.toNat = 69 then
          let es := match rest with
            | d :: r =>
              if d.toNat = 45 then (true, r)
              else if d.toNat = 43 then (false, r) else (false, rest)
            | [] => (false, [])
          let ed := takeDigits es.2
          if ed.1 = [] ∨ ed.2 ≠ [] then none
          else some (decimalValue neg ipart fpart es.1 ed.1)
        else none

/-- The slash separator of face-vertex tokens. -/
def slashChar : Char := '/'

/-- Splits a character list on a separator character, keeping empty
segments — the behavior of Rust's `str::split` with a `char` pattern
(and of Lean's `String.splitOn`, reimplemented structurally). -/
def splitOnSep (sep : Char) : List Char → List (List Char)
  | [] => [[]]
  | c :: rest =>
    match splitOnSep sep rest with
    | [] => [[]]
    | g :: gs => if c = sep then [] :: g :: gs else (c :: g) :: gs

/-- Composite face-vertex key (`FaceIndex` in the source): mandatory
1-based position index, optional texture-coordinate and normal indices.
Equality is structural over all three fields. -/
structure FaceIndex where
  p_index : Nat
  tx_index : Option Nat
  n_index : Option Nat
  deriving DecidableEq, Repr

/-- Models `parse_face_index`: split the token on slashes; the position
index must parse as `u32` (its `expect` panic is a malformed-number
failure); a texture index that is empty, or that fails to parse, is
treated as absent (`parse::<u32>().ok()`), and likewise a normal index
that fails to parse. -/
def parse_face_index (vertex : String) : Except LoadError FaceIndex :=
  let indices := splitOnSep slashChar vertex.toList
  match (indices[0]?).bind parseU32Chars with
  | none => .error .malformedNumber
  | some p =>
    let tx := match indices[1]? with
      | some i => if i = [] then none else parseU32Chars i
      | none => none
    let n := (indices[2]?).bind parseU32Chars
    .ok ⟨p, tx, n⟩

/-- A face: its face-vertex keys and the active material index at parse
time. -/
structure Face where
  indices : List FaceIndex
  mat_index : Option Nat
  deriving DecidableEq, Repr

/-- Models `parse_face`: all three tokens must be present (a missing
token is the could-not-parse-as-face panic, a non-triangular topology),
and each token is parsed by `parse_face_index`, first failure winning. -/
def parse_face (f1 f2 f3 : Option String) (active_mat_index : Option Nat) :
    Except LoadError Face :=
  match f1, f2, f3 with
  | some v1, some v2, some v3 =>
    match parse_face_index v1, parse_face_index v2, parse_face_index v3 with
    | .ok i1, .ok i2, .ok i3 => .ok ⟨[i1, i2, i3], active_mat_index⟩
    | .error e, _, _ => .error e
    | _, .error e, _ => .error e
    | _, _, .error e => .error e
  | _, _, _ => .error .unsupportedTopology

/-- Models the `f` branch of `load`: take three whitespace tokens, assert
that no fourth token exists (the `debug_assert` rejecting
non-triangulated faces), and parse the face. -/
def handleFaceLine (ws : List String) (active_mat_index : Option Nat) :
    Except LoadError Face :=
  let f1 := ws[0]?
  let f2 := ws[1]?
  let f3 := ws[2]?
  if (ws[3]?).isSome then .error .unsupportedTopology
  else parse_face f1 f2 f3 active_mat_index

/-- Models `parse_vertex_position`: all three fields must be present and
parse as `f32`, else the unwrap or the fallthrough match arm panics. -/
def parse_vertex_position (v1 v2 v3 : Option String) : Except LoadError Vec3 :=
  match v1, v2, v3 with
  | some a, some b, some c =>
    match parseF32 a, parseF32 b, parseF32 c with
    | some x, some y, some z => .ok ⟨x, y, z⟩
    | _, _, _ => .error .malformedNumber
  | _, _, _ => .error .malformedNumber

/-- Models `parse_vertex_normal`: all three fields must be present and
parse as `f32`. -/
def parse_vertex_normal (n1 n2 n3 : Option String) : Except LoadError Vec3 :=
  match n1, n2, n3 with
  | some a, some b, some c =>
    match parseF32 a, parseF32 b, parseF32 c with
    | some x, some y, some z => .ok ⟨x, y, z⟩
    | _, _, _ => .error .malformedNumber
  | _, _, _ => .error .malformedNumber

/-- Models `parse_tex_coords`: both fields must be present and parse as
`f32`. -/
def parse_tex_coords (tx1 tx2 : Option String) : Except LoadError Vec2 :=
  match tx1, tx2 with
  | some a, some b =>
    match parseF32 a, parseF32 b with
    | some sc, some tc => .ok ⟨sc, tc⟩
    | _, _ => .error .malformedNumber
  | _, _ => .error .malformedNumber

/-- Final GPU-facing vertex: fully resolved position, normal and texture
coordinates. -/
structure Vertex where
  position : Vec3
  normal : Vec3
  tex_coords : Vec2
  deriving DecidableEq, Repr

/-- The process-wide OpenGL binding state touched by this pipeline: a
handle allocator for `Gen*` calls, the currently bound vertex array, and
the texture bound to `TEXTURE_2D` on the active unit (0 means unbound). -/
structure GLState where
  nextHandle : Nat
  boundVertexArray : Nat
  boundTexture2D : Nat
  deriving DecidableEq, Repr

/-- A GPU texture resource: the owned texture handle. -/
structure Texture where
  id : Nat
  deriving DecidableEq, Repr

/-- A material: at most one diffuse texture. -/
structure Material where
  diffuse_texture : Option Texture
  deriving DecidableEq, Repr

/-- A decoded pixel buffer with its dimensions. -/
structure ImageBuf where
  width : Nat
  height : Nat
  raw_pixels : List Nat
  deriving DecidableEq, Repr

/-- The `image` crate's `DynamicImage` as used by the source: the four
8-bit channel layouts the crate exposes (the format match in
`Texture::new` is exhaustive over exactly these). -/
inductive DynamicImage where
  | ImageLuma8 : ImageBuf → DynamicImage
  | ImageLumaA8 : ImageBuf → DynamicImage
  | ImageRgb8 : ImageBuf → DynamicImage
  | ImageRgba8 : ImageBuf → DynamicImage
  deriving DecidableEq, Repr

/-- Number of color channels of each decoded-image layout. -/
def DynamicImage.channels : DynamicImage → Nat
  | .ImageLuma8 _ => 1
  | .ImageLumaA8 _ => 2
  | .ImageRgb8 _ => 3
  | .ImageRgba8 _ => 4

/-- The GPU storage formats the upload path can choose. -/
inductive GlFormat where
  | RED : GlFormat
  | RG : GlFormat
  | RGB : GlFormat
  | RGBA : GlFormat
  deriving DecidableEq, Repr

/-- The storage-format match in `Texture::new`. -/
def textureFormat : DynamicImage → GlFormat
  | .ImageLuma8 _ => .RED
  | .ImageLumaA8 _ => .RG
  | .ImageRgb8 _ => .RGB
  | .ImageRgba8 _ => .RGBA

/-- Models `Texture::new`: generate a texture handle, choose the storage
format by `textureFormat`, bind the texture and upload.  The pixel upload,
mipmap generation and sampler-parameter calls do not touch the modelled
binding state; the texture binding is left in place on return. -/
def Texture.new (img : DynamicImage) (s : GLState) : Texture × GLState :=
  let texture_id := s.nextHandle
  let _fmt := textureFormat img
  (⟨texture_id⟩,
   { nextHandle := s.nextHandle + 1,
     boundVertexArray := s.boundVertexArray,
     boundTexture2D := texture_id })

/-- The mesh resource: the final arrays plus the owned GPU handles. -/
structure Mesh where
  vertices : List Vertex
  indices : List Nat
  materials : List Material
  vao : Nat
  vbo : Nat
  ebo : Nat
  deriving DecidableEq, Repr

/-- Models `Mesh::new`: generate the vertex-array and buffer handles,
upload both arrays (`&vertices[0]` and `&indices[0]` are out-of-range
accesses on empty arrays), configure the three vertex attributes, and
unbind the vertex array before returning.  The buffer uploads and
attribute pointers do not touch the modelled binding state. -/
def Mesh.new (vertices : List Vertex) (indices : List Nat)
    (materials : List Material) (s : GLState) : Except LoadError (Mesh × GLState) :=
  if vertices = [] ∨ indices = [] then .error .arrayIndex
  else
    .ok ({ vertices := vertices, indices := indices, materials := materials,
           vao := s.nextHandle, vbo := s.nextHandle + 1, ebo := s.nextHandle + 2 },
         { nextHandle := s.nextHandle + 3, boundVertexArray := 0,
           boundTexture2D := s.boundTexture2D })

/-- Models `Mesh::render`: assert at most one material (the
`debug_assert`, modelled as an error exit carrying the state unchanged at
the panic), bind each material's diffuse texture when present, bind the
vertex array, draw, and unbind the vertex array.  The uniform upload and
the draw call do not touch the modelled binding state. -/
def Mesh.render (m : Mesh) (s : GLState) : Except GLState GLState :=
  if m.materials.length ≤ 1 then
    let s1 := m.materials.foldl
      (fun acc mat =>
        match mat.diffuse_texture with
        | some t => { acc with boundTexture2D := t.id }
        | none => acc) s
    let s2 := { s1 with boundVertexArray := m.vao }
    let s3 := { s2 with boundVertexArray := 0 }
    .ok s3
  else .error s

/-- A 1-based Rust slice access `l[i as usize - 1]`: `i = 0` underflows
the subtraction and any out-of-range access panics. -/
def getAt1 {α : Type} (l : List α) (i : Nat) : Except LoadError α :=
  if i = 0 then .error .arrayIndex
  else
    match l[i - 1]? with
    | some a => .ok a
    | none => .error .arrayIndex

/-- A 0-based Rust slice access `l[i]`: out-of-range accesses panic. -/
def getAt0 {α : Type} (l : List α) (i : Nat) : Except LoadError α :=
  match l[i]? with
  | some a => .ok a
  | none => .error .arrayIndex

/-- Models `Face::normal`: the flat face normal, the normalized cross
product of the edges from the face's first resolved position to its
second and third (all through 1-based position indices). -/
def Face.normal (sq : Frac → Frac) (positions : List Vec3) (f : Face) :
    Except LoadError Vec3 :=
  match getAt0 f.indices 0, getAt0 f.indices 1, getAt0 f.indices 2 with
  | .ok i0, .ok i1, .ok i2 =>
    match getAt1 positions i0.p_index, getAt1 positions i1.p_index,
          getAt1 positions i2.p_index with
    | .ok p0, .ok p1, .ok p2 =>
      .ok (Vec3.normalize sq (Vec3.cross (Vec3.sub p1 p0) (Vec3.sub p2 p0)))
    | .error e, _, _ => .error e
    | _, .error e, _ => .error e
    | _, _, .error e => .error e
  | .error e, _, _ => .error e
  | _, .error e, _ => .error e
  | _, _, .error e => .error e

/-- Models the new-vertex block of `reindex_faces` (the `None` branch of
the map lookup): position from the 1-based position index; texture
coordinates from the 1-based texture index, or zero when absent; normal
from the 1-based normal index, or the face normal when absent. -/
def resolveVertex (positions : List Vec3) (normals : List Vec3)
    (tex_coords : List Vec2) (face_normal : Vec3) (index : FaceIndex) :
    Except LoadError Vertex :=
  match getAt1 positions index.p_index with
  | .error e => .error e
  | .ok position =>
    match (match index.tx_index with
           | some i => getAt1 tex_coords i
           | none => .ok Vec2.zero) with
    | .error e => .error e
    | .ok tc =>
      match (match index.n_index with
             | some i => getAt1 normals i
             | none => .ok face_normal) with
      | .error e => .error e
      | .ok nrm => .ok ⟨position, nrm, tc⟩

/-- Transient reindexing state: the key-to-final-index mapping (the
`HashMap` modelled as an association list looked up by structural
equality) and the output vertex and index arrays. -/
structure ReState where
  map : List (FaceIndex × Nat)
  final_vertices : List Vertex
  final_indices : List Nat
  deriving DecidableEq, Repr

/-- `HashMap::get` on the association-list model: the value of the first
entry with the given key. -/
def lookupKey : List (FaceIndex × Nat) → FaceIndex → Option Nat
  | [], _ => none
  | (k, v) :: rest, key => if k = key then some v else lookupKey rest key

/-- One iteration of the inner loop of `reindex_faces`: reuse the final
index of a key that was seen before, or resolve a new vertex, append it,
record its newly assigned index in the mapping, and append that index. -/
def processIndex (positions : List Vec3) (normals : List Vec3)
    (tex_coords : List Vec2) (face_normal : Vec3) (st : ReState)
    (index : FaceIndex) : Except LoadError ReState :=
  match lookupKey st.map index with
  | some i => .ok { st with final_indices := st.final_indices ++ [i] }
  | none =>
    match resolveVertex positions normals tex_coords face_normal index with
    | .error e => .error e
    | .ok new_vertex =>
      let new_index := st.final_vertices.length
      .ok { map := (index, new_index) :: st.map,
            final_vertices := st.final_vertices ++ [new_vertex],
            final_indices := st.final_indices ++ [new_index] }

/-- The inner loop of `reindex_faces` over one face's keys, in order. -/
def processIndexList (positions : List Vec3) (normals : List Vec3)
    (tex_coords : List Vec2) (face_normal : Vec3) (st : ReState) :
    List FaceIndex → Except LoadError ReState
  | [] => .ok st
  | i :: rest =>
    match processIndex positions normals tex_coords face_normal st i with
    | .error e => .error e
    | .ok st2 => processIndexList positions normals tex_coords face_normal st2 rest

/-- The outer loop of `reindex_faces` over the faces in file order: the
face normal is computed for each face up front, then the face's keys are
processed in order. -/
def processFaces (sq : Frac → Frac) (positions : List Vec3) (normals : List Vec3)
    (tex_coords : List Vec2) (st : ReState) : List Face → Except LoadError ReState
  | [] => .ok st
  | f :: rest =>
    match Face.normal sq positions f with
    | .error e => .error e
    | .ok fn =>
      match processIndexList positions normals tex_coords fn st f.indices with
      | .error e => .error e
      | .ok st2 => processFaces sq positions normals tex_coords st2 rest

/-- Models `reindex_faces`: run the deduplicating loops starting from the
empty mapping and empty arrays, then hand the final arrays to
`Mesh::new`. -/
def reindex_faces (sq : Frac → Frac) (positions : List Vec3)
    (normals : List Vec3) (tex_coords : List Vec2) (faces : List Face)
    (materials : List Material) (s : GLState) : Except LoadError (Mesh × GLState) :=
  match processFaces sq positions normals tex_coords ⟨[], [], []⟩ faces with
  | .error e => .error e
  | .ok st => Mesh.new st.final_vertices st.final_indices materials s

/-- The stream of face-vertex keys in processing order: faces in file
order, each face's three keys in order. -/
def faceStream : List Face → List FaceIndex
  | [] => []
  | f :: rest => f.indices ++ faceStream rest

/-- First-encounter deduplication relative to an accumulator of
already-seen elements: keeps the first occurrence of each element, in
order. -/
def firstSeenAux {α : Type} [DecidableEq α] (seen : List α) : List α → List α
  | [] => []
  | a :: rest =>
    if a ∈ seen then firstSeenAux seen rest
    else a :: firstSeenAux (a :: seen) rest

/-- Specification-side description of the reindexer's vertex order: the
face-vertex keys in strictly first-encounter order. -/
def firstSeen {α : Type} [DecidableEq α] (l : List α) : List α := firstSeenAux [] l

/-- Membership in the first-encounter deduplication: exactly the stream
elements not already seen. -/
theorem mem_firstSeenAux {α : Type} [DecidableEq α] (a : α) (l : List α) :
    ∀ seen : List α, a ∈ firstSeenAux seen l ↔ a ∈ l ∧ a ∉ seen := by
  induction l with
  | nil => intro seen; simp [firstSeenAux]
  | cons b rest ih =>
    intro seen
    by_cases hb : b ∈ seen
    · simp only [firstSeenAux, if_pos hb, ih, List.mem_cons]
      constructor
      · exact fun h => ⟨Or.inr h.1, h.2⟩
      · rintro ⟨rfl | h1, h2⟩
        · exact absurd hb h2
        · exact ⟨h1, h2⟩
    · simp only [firstSeenAux, if_neg hb, List.mem_cons, ih]
      by_cases hab : a = b
      · subst hab; simp [hb]
      · simp [hab, List.mem_cons]

/-- The first-encounter deduplication has no duplicates. -/
theorem nodup_firstSeenAux {α : Type} [DecidableEq α] (l : List α) :
    ∀ seen : List α, (firstSeenAux seen l).Nodup := by
  induction l with
  | nil => intro seen; simp [firstSeenAux]
  | cons b rest ih =>
    intro seen
    by_cases hb : b ∈ seen
    · simpa [firstSeenAux, hb] using ih seen
    · simp only [firstSeenAux, if_neg hb]
      refine List.nodup_cons.mpr ⟨?_, ih (b :: seen)⟩
      intro hmem
      exact ((mem_firstSeenAux b rest (b :: seen)).mp hmem).2 (List.mem_cons_self b seen)

/-- Appending an already-covered element does not change the
first-encounter deduplication. -/
theorem firstSeenAux_append_of_mem {α : Type} [DecidableEq α] {a : α} (l : List α) :
    ∀ seen : List α, a ∈ seen ∨ a ∈ l →
      firstSeenAux seen (l ++ [a]) = firstSeenAux seen l := by
  induction l with
  | nil =>
    intro seen ha
    rcases ha with ha | ha
    · simp [firstSeenAux, ha]
    · exact absurd ha (List.not_mem_nil a)
  | cons b rest ih =>
    intro seen ha
    by_cases hb : b ∈ seen
    · simp only [List.cons_append, firstSeenAux, if_pos hb]
      refine ih seen ?_
      rcases ha with ha | ha
      · exact Or.inl ha
      · rcases List.mem_cons.mp ha with rfl | ha
        · exact Or.inl hb
        · exact Or.inr ha
    · simp only [List.cons_append, firstSeenAux, if_neg hb]
      refine congrArg (List.cons b) (ih (b :: seen) ?_)
      rcases ha with ha | ha
      · exact Or.inl (List.mem_cons_of_mem b ha)
      · rcases List.mem_cons.mp ha with rfl | ha
        · exact Or.inl (List.mem_cons_self a seen)
        · exact Or.inr ha

/-- Appending a fresh element appends it to the first-encounter
deduplication. -/
theorem firstSeenAux_append_of_not_mem {α : Type} [DecidableEq α] {a : α} (l : List α) :
    ∀ seen : List α, a ∉ seen → a ∉ l →
      firstSeenAux seen (l ++ [a]) = firstSeenAux seen l ++ [a] := by
  induction l with
  | nil => intro seen hs _; simp [firstSeenAux, hs]
  | cons b rest ih =>
    intro seen hs hl
    have hab : a ≠ b := fun h => hl (h ▸ List.mem_cons_self b rest)
    have hrest : a ∉ rest := fun h => hl (List.mem_cons_of_mem b h)
    by_cases hb : b ∈ seen
    · simp only [List.cons_append, firstSeenAux, if_pos hb]
      exact ih seen hs hrest
    · simp only [List.cons_append, firstSeenAux, if_neg hb, List.append_eq]
      rw [ih (b :: seen) (by simp [hab, hs, List.mem_cons]) hrest]

/-- First-encounter deduplication never grows past the stream length. -/
theorem length_firstSeenAux_le {α : Type} [DecidableEq α] (l : List α) :
    ∀ seen : List α, (firstSeenAux seen l).length ≤ l.length := by
  induction l with
  | nil => intro seen; simp [firstSeenAux]
  | cons b rest ih =>
    intro seen
    by_cases hb : b ∈ seen
    · simp only [firstSeenAux, if_pos hb, List.length_cons]
      exact Nat.le_succ_of_le (ih seen)
    · simp only [firstSeenAux, if_neg hb, List.length_cons]
      exact Nat.succ_le_succ (ih (b :: seen))

/-- A non-empty stream has a non-empty first-encounter deduplication. -/
theorem firstSeen_ne_nil {α : Type} [DecidableEq α] {l : List α} (h : l ≠ []) :
    firstSeen l ≠ [] := by
  cases l with
  | nil => exact absurd rfl h
  | cons b rest => simp [firstSeen, firstSeenAux]

/-- A successful association-list lookup is a member. -/
theorem lookupKey_some_mem (m : List (FaceIndex × Nat)) (k : FaceIndex) :
    ∀ v : Nat, lookupKey m k = some v → (k, v) ∈ m := by
  induction m with
  | nil => intro v h; simp [lookupKey] at h
  | cons p rest ih =>
    intro v h
    obtain ⟨k2, v2⟩ := p
    by_cases hk : k2 = k
    · rw [lookupKey, if_pos hk] at h
      subst hk
      obtain rfl : v2 = v := Option.some.inj h
      exact List.mem_cons_self _ _
    · rw [lookupKey, if_neg hk] at h
      exact List.mem_cons_of_mem _ (ih v h)

/-- A failing association-list lookup means the key is absent. -/
theorem lookupKey_none_iff (m : List (FaceIndex × Nat)) (k : FaceIndex) :
    lookupKey m k = none ↔ ∀ v : Nat, (k, v) ∉ m := by
  induction m with
  | nil => simp [lookupKey]
  | cons p rest ih =>
    obtain ⟨k2, v2⟩ := p
    by_cases hk : k2 = k
    · subst hk
      rw [lookupKey, if_pos rfl]
      simp only [List.mem_cons]
      constructor
      · intro h; exact absurd h (by simp)
      · intro h
        exact absurd (Or.inl rfl) (h v2)
    · rw [lookupKey, if_neg hk, ih]
      simp only [List.mem_cons]
      constructor
      · intro h v hv
        rcases hv with heq | hv
        · exact hk (congrArg Prod.fst heq.symm)
        · exact h v hv
      · intro h v hv
        exact h v (Or.inr hv)

/-- Loop invariant of the reindexing fold, relative to the stream of keys
processed so far: the mapping holds exactly the pairs (key, position of
that key in the first-encounter ordering of the processed stream); the
array lengths are determined by the stream; every output index is in
range; and every vertex slot is referenced by some output index. -/
structure ReInv (processed : List FaceIndex) (st : ReState) : Prop where
  map_iff : ∀ k j, (k, j) ∈ st.map ↔ (firstSeen processed)[j]? = some k
  vlen : st.final_vertices.length = (firstSeen processed).length
  ilen : st.final_indices.length = processed.length
  idx_lt : ∀ i ∈ st.final_indices, i < st.final_vertices.length
  idx_cover : ∀ j, j < st.final_vertices.length → j ∈ st.final_indices

/-- The invariant holds for the empty state. -/
theorem reInv_init : ReInv [] ⟨[], [], []⟩ := by
  refine ⟨?_, ?_, ?_, ?_, ?_⟩ <;> simp [firstSeen, firstSeenAux]

/-- Processing one key preserves the invariant, extending the processed
stream by that key. -/
theorem processIndex_inv {positions normals : List Vec3} {tcs : List Vec2}
    {fn : Vec3} {st st' : ReState} {processed : List FaceIndex} {k : FaceIndex}
    (hinv : ReInv processed st)
    (h : processIndex positions normals tcs fn st k = .ok st') :
    ReInv (processed ++ [k]) st' := by
  cases hl : lookupKey st.map k with
  | some i =>
    have hmem : (k, i) ∈ st.map := lookupKey_some_mem st.map k i hl
    have hfs : (firstSeen processed)[i]? = some k := (hinv.map_iff k i).mp hmem
    have hkproc : k ∈ processed :=
      ((mem_firstSeenAux k processed []).mp (List.getElem?_mem hfs)).1
    have hstream : firstSeen (processed ++ [k]) = firstSeen processed :=
      firstSeenAux_append_of_mem processed [] (Or.inr hkproc)
    simp only [processIndex, hl, Except.ok.injEq] at h
    subst h
    obtain ⟨hlt, -⟩ := List.getElem?_eq_some_iff.mp hfs
    refine ⟨?_, ?_, ?_, ?_, ?_⟩
    · intro k2 j
      rw [firstSeen] at hstream
      simp only [firstSeen, hstream]
      exact hinv.map_iff k2 j
    · rw [firstSeen] at hstream
      simp only [firstSeen, hstream]
      exact hinv.vlen
    · simp [List.length_append, hinv.ilen]
    · intro x hx
      rcases List.mem_append.mp hx with hx | hx
      · exact hinv.idx_lt x hx
      · rcases List.mem_singleton.mp hx with rfl
        exact hinv.vlen ▸ hlt
    · intro j hj
      exact List.mem_append.mpr (Or.inl (hinv.idx_cover j hj))
  | none =>
    have hnot : ∀ v, (k, v) ∉ st.map := (lookupKey_none_iff st.map k).mp hl
    have hkfs : k ∉ firstSeen processed := by
      intro hmem
      obtain ⟨j, hj⟩ := List.mem_iff_getElem?.mp hmem
      exact hnot j ((hinv.map_iff k j).mpr hj)
    have hkproc : k ∉ processed := fun hp =>
      hkfs ((mem_firstSeenAux k processed []).mpr ⟨hp, List.not_mem_nil k⟩)
    have hstream : firstSeen (processed ++ [k]) = firstSeen processed ++ [k] :=
      firstSeenAux_append_of_not_mem processed [] (List.not_mem_nil k) hkproc
    cases hr : resolveVertex positions normals tcs fn k with
    | error e =>
      simp only [processIndex, hl, hr] at h
      exact Except.noConfusion h
    | ok v =>
      simp only [processIndex, hl, hr, Except.ok.injEq] at h
      subst h
      have hvlen := hinv.vlen
      refine ⟨?_, ?_, ?_, ?_, ?_⟩
      · intro k2 j
        simp only [List.mem_cons, hstream]
        constructor
        · rintro (heq | hmem2)
          · obtain ⟨rfl, rfl⟩ := Prod.mk.injEq k2 j k st.final_vertices.length ▸ heq
            rw [hvlen]
            exact List.getElem?_concat_length _ _
          · have hget := (hinv.map_iff k2 j).mp hmem2
            have hjlt : j < (firstSeen processed).length :=
              (List.getElem?_eq_some_iff.mp hget).1
            rw [List.getElem?_append_left hjlt]
            exact hget
        · intro hget
          by_cases hj : j < (firstSeen processed).length
          · rw [List.getElem?_append_left hj] at hget
            exact Or.inr ((hinv.map_iff k2 j).mpr hget)
          · have hj2 : j = (firstSeen processed).length := by
              by_contra hne
              have hle : (firstSeen processed ++ [k]).length ≤ j := by
                simp only [List.length_append, List.length_singleton]
                omega
              rw [List.getElem?_eq_none hle] at hget
              exact Option.noConfusion hget
            subst hj2
            rw [List.getElem?_concat_length] at hget
            obtain rfl := Option.some.inj hget
            exact Or.inl (by rw [hvlen])
      · simp [hstream, List.length_append, hvlen]
      · simp [List.length_append, hinv.ilen]
      · intro x hx
        simp only [List.length_append, List.length_singleton]
        rcases List.mem_append.mp hx with hx | hx
        · have := hinv.idx_lt x hx
          omega
        · rcases List.mem_singleton.mp hx with rfl
          omega
      · intro j hj
        simp only [List.length_append, List.length_singleton] at hj
        by_cases hjn : j < st.final_vertices.length
        · exact List.mem_append.mpr (Or.inl (hinv.idx_cover j hjn))
        · have hj2 : j = st.final_vertices.length := by omega
          subst hj2
          exact List.mem_append.mpr (Or.inr (List.mem_singleton.mpr rfl))

/-- The inner loop preserves the invariant over a whole key list. -/
theorem processIndexList_inv {positions normals : List Vec3} {tcs : List Vec2}
    {fn : Vec3} (l : List FaceIndex) :
    ∀ (processed : List FaceIndex) (st st' : ReState), ReInv processed st →
      processIndexList positions normals tcs fn st l = .ok st' →
      ReInv (processed ++ l) st' := by
  induction l with
  | nil =>
    intro processed st st' hinv h
    simp only [processIndexList] at h
    obtain rfl := Except.ok.inj h
    simpa using hinv
  | cons i rest ih =>
    intro processed st st' hinv h
    simp only [processIndexList] at h
    cases hp : processIndex positions normals tcs fn st i with
    | error e => rw [hp] at h; exact Except.noConfusion h
    | ok st2 =>
      rw [hp] at h
      have h2 := processIndex_inv hinv hp
      have h3 := ih (processed ++ [i]) st2 st' h2 h
      simpa [List.append_assoc] using h3

/-- The outer loop preserves the invariant over a whole face list,
extending the processed stream by the faces' key stream. -/
theorem processFaces_inv {sq : Frac → Frac} {positions normals : List Vec3}
    {tcs : List Vec2} (fs : List Face) :
    ∀ (processed : List FaceIndex) (st st' : ReState), ReInv processed st →
      processFaces sq positions normals tcs st fs = .ok st' →
      ReInv (processed ++ faceStream fs) st' := by
  induction fs with
  | nil =>
    intro processed st st' hinv h
    simp only [processFaces] at h
    obtain rfl := Except.ok.inj h
    simpa [faceStream] using hinv
  | cons f rest ih =>
    intro processed st st' hinv h
    cases hfn : Face.normal sq positions f with
    | error e =>
      simp only [processFaces, hfn] at h
      exact Except.noConfusion h
    | ok fn =>
      simp only [processFaces, hfn] at h
      cases hl : processIndexList positions normals tcs fn st f.indices with
      | error e => rw [hl] at h; exact Except.noConfusion h
      | ok st2 =>
        rw [hl] at h
        have h2 := processIndexList_inv f.indices processed st st2 hinv hl
        have h3 := ih (processed ++ f.indices) st2 st' h2 h
        simpa [faceStream, List.append_assoc] using h3

/-- The invariant for a complete run of the reindexing loops. -/
theorem processFaces_run_inv {sq : Frac → Frac} {positions normals : List Vec3}
    {tcs : List Vec2} {faces : List Face} {st' : ReState}
    (h : processFaces sq positions normals tcs ⟨[], [], []⟩ faces = .ok st') :
    ReInv (faceStream faces) st' := by
  have h2 := processFaces_inv faces [] ⟨[], [], []⟩ st' reInv_init h
  simpa using h2

/-- The key stream of a list of triangles has three keys per face. -/
theorem faceStream_length_of_tri {faces : List Face}
    (h : ∀ f ∈ faces, f.indices.length = 3) :
    (faceStream faces).length = 3 * faces.length := by
  induction faces with
  | nil => simp [faceStream]
  | cons f rest ih =>
    simp only [faceStream, List.length_append, List.length_cons]
    rw [h f (List.mem_cons_self f rest), ih (fun g hg => h g (List.mem_cons_of_mem f hg))]
    ring

/-- Destructs a successful `reindex_faces` run into the loop state whose
arrays the mesh holds unchanged. -/
theorem reindex_faces_ok {sq : Frac → Frac} {positions normals : List Vec3}
    {tcs : List Vec2} {faces : List Face} {materials : List Material}
    {s : GLState} {mesh : Mesh} {s2 : GLState}
    (h : reindex_faces sq positions normals tcs faces materials s = .ok (mesh, s2)) :
    ∃ st : ReState,
      processFaces sq positions normals tcs ⟨[], [], []⟩ faces = .ok st ∧
      mesh.vertices = st.final_vertices ∧ mesh.indices = st.final_indices ∧
      mesh.materials = materials := by
  simp only [reindex_faces] at h
  cases hst : processFaces sq positions normals tcs ⟨[], [], []⟩ faces with
  | error e => rw [hst] at h; exact Except.noConfusion h
  | ok st =>
    rw [hst] at h
    simp only [Mesh.new] at h
    split at h
    · exact Except.noConfusion h
    · obtain heq := Except.ok.inj h
      rw [Prod.mk.injEq] at heq
      obtain ⟨hm, -⟩ := heq
      subst hm
      exact ⟨st, rfl, rfl, rfl, rfl⟩

/-- A concrete triangle used to exercise the embedding. -/
def positionsFixture : List Vec3 := [⟨0, 0, 0⟩, ⟨1, 0, 0⟩, ⟨0, 1, 0⟩]

/-- One face referencing the three positions, with no texture or normal
indices. -/
def facesFixture : List Face :=
  [⟨[⟨1, none, none⟩, ⟨2, none, none⟩, ⟨3, none, none⟩], none⟩]

/-- The loop state a run over `facesFixture` produces. -/
def stFixture : ReState :=
  { map := [(⟨3, none, none⟩, 2), (⟨2, none, none⟩, 1), (⟨1, none, none⟩, 0)],
    final_vertices :=
      [⟨⟨0, 0, 0⟩, ⟨0, 0, 1⟩, ⟨0, 0⟩⟩, ⟨⟨1, 0, 0⟩, ⟨0, 0, 1⟩, ⟨0, 0⟩⟩,
       ⟨⟨0, 1, 0⟩, ⟨0, 0, 1⟩, ⟨0, 0⟩⟩],
    final_indices := [0, 1, 2] }

/-- The mesh a run over `facesFixture` produces from the initial GL
state with handle counter 1. -/
def meshResultFixture : Mesh :=
  { vertices := stFixture.final_vertices,
    indices := [0, 1, 2],
    materials := [],
    vao := 1, vbo := 2, ebo := 3 }

/-- C1: for every list of faces each carrying exactly three face-vertex
keys, a successful run of the reindexer produces an index array of
length exactly three times the face count, and a vertex array of length
at most three times the face count and at least one when the face list
is non-empty. -/
theorem C1_reindex_lengths (sq : Frac → Frac) (positions normals : List Vec3)
    (tcs : List Vec2) (faces : List Face) (materials : List Material)
    (s : GLState) (mesh : Mesh) (s2 : GLState)
    (htri : ∀ f ∈ faces, f.indices.length = 3)
    (h : reindex_faces sq positions normals tcs faces materials s = .ok (mesh, s2)) :
    mesh.indices.length = 3 * faces.length ∧
    mesh.vertices.length ≤ 3 * faces.length ∧
    (faces ≠ [] → 1 ≤ mesh.vertices.length) := by
  obtain ⟨st, hst, hv, hi, -⟩ := reindex_faces_ok h
  have hinv := processFaces_run_inv hst
  have hslen := faceStream_length_of_tri htri
  refine ⟨?_, ?_, ?_⟩
  · rw [hi, hinv.ilen, hslen]
  · rw [hv, hinv.vlen, ← hslen]
    exact length_firstSeenAux_le (faceStream faces) []
  · intro hne
    rw [hv, hinv.vlen]
    have hne2 : faceStream faces ≠ [] := by
      cases faces with
      | nil => exact absurd rfl hne
      | cons f rest =>
        intro hcontra
        simp only [faceStream] at hcontra
        rw [List.append_eq_nil] at hcontra
        have h3 := htri f (List.mem_cons_self f rest)
        rw [hcontra.1] at h3
        exact absurd h3 (by simp)
    exact List.length_pos.mpr (firstSeen_ne_nil hne2)

/-- C1 witness: the concrete triangle run, discharging both hypotheses
at evaluated inputs. -/
theorem C1_witness :
    meshResultFixture.indices.length = 3 * facesFixture.length ∧
    meshResultFixture.vertices.length ≤ 3 * facesFixture.length ∧
    1 ≤ meshResultFixture.vertices.length := by
  have h := C1_reindex_lengths id positionsFixture [] [] facesFixture [] ⟨1, 0, 0⟩
    meshResultFixture ⟨4, 0, 0⟩ (by decide) rfl
  exact ⟨h.1, h.2.1, h.2.2 (by decide)⟩

/-- C2: the key-to-final-index mapping built by a successful reindexing
run is a bijection onto the emitted vertex slots 0..(vertexCount-1):
no two distinct keys share a slot, no key holds two slots, every slot of
the mapping is a vertex slot, every vertex slot is hit by the mapping,
and every vertex slot is referenced by at least one output index. -/
theorem C2_map_bijection (sq : Frac → Frac) (positions normals : List Vec3)
    (tcs : List Vec2) (faces : List Face) (st : ReState)
    (h : processFaces sq positions normals tcs ⟨[], [], []⟩ faces = .ok st) :
    (∀ k1 k2 j, (k1, j) ∈ st.map → (k2, j) ∈ st.map → k1 = k2) ∧
    (∀ k j1 j2, (k, j1) ∈ st.map → (k, j2) ∈ st.map → j1 = j2) ∧
    (∀ p ∈ st.map, p.2 < st.final_vertices.length) ∧
    (∀ j, j < st.final_vertices.length → ∃ k, (k, j) ∈ st.map) ∧
    (∀ j, j < st.final_vertices.length → j ∈ st.final_indices) := by
  have hinv := processFaces_run_inv h
  refine ⟨?_, ?_, ?_, ?_, ?_⟩
  · intro k1 k2 j h1 h2
    have g1 := (hinv.map_iff k1 j).mp h1
    have g2 := (hinv.map_iff k2 j).mp h2
    rw [g1] at g2
    exact Option.some.inj g2
  · intro k j1 j2 h1 h2
    have g1 := (hinv.map_iff k j1).mp h1
    have g2 := (hinv.map_iff k j2).mp h2
    have hj1 : j1 < (firstSeen (faceStream faces)).length :=
      (List.getElem?_eq_some_iff.mp g1).1
    exact List.getElem?_inj hj1 (nodup_firstSeenAux (faceStream faces) [])
      (g1.trans g2.symm)
  · intro p hp
    obtain ⟨k, j⟩ := p
    have g := (hinv.map_iff k j).mp hp
    rw [hinv.vlen]
    exact (List.getElem?_eq_some_iff.mp g).1
  · intro j hj
    rw [hinv.vlen] at hj
    refine ⟨(firstSeen (faceStream faces)).get ⟨j, hj⟩, ?_⟩
    rw [hinv.map_iff]
    exact List.getElem?_eq_some_iff.mpr ⟨hj, rfl⟩
  · intro j hj
    exact hinv.idx_cover j hj

/-- C2 witness: the bijection properties evaluated on the concrete
triangle run. -/
theorem C2_witness :
    (0 : Nat) < stFixture.final_vertices.length ∧
    (∃ k, (k, 2) ∈ stFixture.map) ∧
    2 ∈ stFixture.final_indices := by
  have h := C2_map_bijection id positionsFixture [] [] facesFixture stFixture rfl
  exact ⟨h.2.2.1 (⟨1, none, none⟩, 0) (by decide), h.2.2.2.1 2 (by decide),
    h.2.2.2.2 2 (by decide)⟩

/-- C3: reindexing is deterministic and assigns final vertex slots in
strictly first-encounter order: the mapping relates a key to slot j
exactly when that key is the j-th distinct key of the stream of keys of
the faces in file order; the vertex count is the number of distinct
keys; and two runs on the same input produce identical results. -/
theorem C3_first_encounter_order (sq : Frac → Frac) (positions normals : List Vec3)
    (tcs : List Vec2) (faces : List Face) (st : ReState)
    (h : processFaces sq positions normals tcs ⟨[], [], []⟩ faces = .ok st) :
    (∀ k j, (k, j) ∈ st.map ↔ (firstSeen (faceStream faces))[j]? = some k) ∧
    st.final_vertices.length = (firstSeen (faceStream faces)).length ∧
    (∀ (materials : List Material) (s : GLState),
      reindex_faces sq positions normals tcs faces materials s =
        reindex_faces sq positions normals tcs faces materials s) := by
  have hinv := processFaces_run_inv h
  exact ⟨hinv.map_iff, hinv.vlen, fun _ _ => rfl⟩

/-- C3 witness: the first-encounter characterization evaluated on the
concrete triangle run. -/
theorem C3_witness :
    ((⟨1, none, none⟩ : FaceIndex), 0) ∈ stFixture.map ∧
    stFixture.final_vertices.length = (firstSeen (faceStream facesFixture)).length ∧
    reindex_faces id positionsFixture [] [] facesFixture [] ⟨1, 0, 0⟩ =
      reindex_faces id positionsFixture [] [] facesFixture [] ⟨1, 0, 0⟩ := by
  have h := C3_first_encounter_order id positionsFixture [] [] facesFixture stFixture rfl
  exact ⟨(h.1 ⟨1, none, none⟩ 0).mpr (by decide), h.2.1, h.2.2 [] ⟨1, 0, 0⟩⟩

/-- C10: every element of the index array of a successfully reindexed
mesh is strictly below the length of the vertex array it is produced
with, so the pair handed to mesh creation is a valid index buffer. -/
theorem C10_index_buffer_valid (sq : Frac → Frac) (positions normals : List Vec3)
    (tcs : List Vec2) (faces : List Face) (materials : List Material)
    (s : GLState) (mesh : Mesh) (s2 : GLState)
    (h : reindex_faces sq positions normals tcs faces materials s = .ok (mesh, s2)) :
    ∀ i ∈ mesh.indices, i < mesh.vertices.length := by
  obtain ⟨st, hst, hv, hi, -⟩ := reindex_faces_ok h
  have hinv := processFaces_run_inv hst
  rw [hv, hi]
  exact hinv.idx_lt

/-- C10 witness: index-buffer validity evaluated on the concrete
triangle run. -/
theorem C10_witness :
    (2 : Nat) ∈ meshResultFixture.indices ∧
    2 < meshResultFixture.vertices.length :=
  ⟨by decide, C10_index_buffer_valid id positionsFixture [] [] facesFixture []
    ⟨1, 0, 0⟩ meshResultFixture ⟨4, 0, 0⟩ rfl 2 (by decide)⟩

/-- The face of the concrete triangle. -/
def faceFixture : Face := ⟨[⟨1, none, none⟩, ⟨2, none, none⟩, ⟨3, none, none⟩], none⟩

/-- The empty-texture-field face-vertex token form `p//n`. -/
def tokenSlashSlash : String := "1//3"

/-- A face-vertex token with a present but non-numeric texture field. -/
def tokenBadTexture : String := "1/x/2"

/-- A non-numeric field. -/
def strX : String := "x"

/-- Numeric tokens. -/
def strOne : String := "1"

/-- Numeric tokens. -/
def strTwo : String := "2"

/-- Numeric tokens. -/
def strThree : String := "3"

/-- Numeric tokens. -/
def strFour : String := "4"

/-- C4: a face-vertex key resolved to a new vertex by the reindexer gets
the zero texture coordinate when its texture index is absent, the owning
face's flat normal when its normal index is absent, and the parsed
normal at the 1-based normal index — not the flat normal — when the
normal index is present; and the empty-texture-field token form `1//3`
parses to an absent texture index with normal index 3. -/
theorem C4_vertex_resolution (positions normals : List Vec3) (tcs : List Vec2)
    (fn : Vec3) (idx : FaceIndex) (v : Vertex)
    (h : resolveVertex positions normals tcs fn idx = .ok v) :
    (idx.tx_index = none → v.tex_coords = Vec2.zero) ∧
    (idx.n_index = none → v.normal = fn) ∧
    (∀ i, idx.n_index = some i → getAt1 normals i = .ok v.normal) ∧
    parse_face_index tokenSlashSlash = .ok ⟨1, none, some 3⟩ := by
  refine ⟨?_, ?_, ?_, rfl⟩
  · intro htx
    simp only [resolveVertex, htx] at h
    split at h
    · exact Except.noConfusion h
    · split at h
      · exact Except.noConfusion h
      · obtain rfl := Except.ok.inj h
        rfl
  · intro hn
    simp only [resolveVertex, hn] at h
    split at h
    · exact Except.noConfusion h
    · split at h
      · exact Except.noConfusion h
      · obtain rfl := Except.ok.inj h
        rfl
  · intro i hn
    simp only [resolveVertex, hn] at h
    split at h
    · exact Except.noConfusion h
    · split at h
      · exact Except.noConfusion h
      · split at h
        · exact Except.noConfusion h
        · rename_i nrm heq
          obtain rfl := Except.ok.inj h
          exact heq

/-- C4 witness: a key with an absent texture index and normal index 1
resolves against one parsed normal. -/
theorem C4_witness :
    (Vertex.mk ⟨0, 0, 0⟩ ⟨1, 2, 3⟩ Vec2.zero).tex_coords = Vec2.zero ∧
    getAt1 [⟨1, 2, 3⟩] 1 = .ok (Vertex.mk ⟨0, 0, 0⟩ ⟨1, 2, 3⟩ Vec2.zero).normal := by
  have h := C4_vertex_resolution [⟨0, 0, 0⟩] [⟨1, 2, 3⟩] [] ⟨9, 9, 9⟩
    ⟨1, none, some 1⟩ (Vertex.mk ⟨0, 0, 0⟩ ⟨1, 2, 3⟩ Vec2.zero) rfl
  exact ⟨h.1 rfl, h.2.2.1 1 rfl⟩

/-- C5: the flat face normal of a face, when its first three keys and
their 1-based position lookups resolve, is the normalized cross product
of the edges from the first resolved position to the second and to the
third. -/
theorem C5_flat_normal (sq : Frac → Frac) (positions : List Vec3) (f : Face)
    (i0 i1 i2 : FaceIndex) (p0 p1 p2 : Vec3)
    (h0 : getAt0 f.indices 0 = .ok i0) (h1 : getAt0 f.indices 1 = .ok i1)
    (h2 : getAt0 f.indices 2 = .ok i2)
    (hp0 : getAt1 positions i0.p_index = .ok p0)
    (hp1 : getAt1 positions i1.p_index = .ok p1)
    (hp2 : getAt1 positions i2.p_index = .ok p2) :
    Face.normal sq positions f =
      .ok (Vec3.normalize sq (Vec3.cross (Vec3.sub p1 p0) (Vec3.sub p2 p0))) := by
  simp only [Face.normal, h0, h1, h2, hp0, hp1, hp2]

/-- C5 witness: the flat normal of the concrete triangle. -/
theorem C5_witness :
    Face.normal id positionsFixture faceFixture =
      .ok (Vec3.normalize id (Vec3.cross (Vec3.sub ⟨1, 0, 0⟩ ⟨0, 0, 0⟩)
        (Vec3.sub ⟨0, 1, 0⟩ ⟨0, 0, 0⟩))) :=
  C5_flat_normal id positionsFixture faceFixture ⟨1, none, none⟩ ⟨2, none, none⟩
    ⟨3, none, none⟩ ⟨0, 0, 0⟩ ⟨1, 0, 0⟩ ⟨0, 1, 0⟩ rfl rfl rfl rfl rfl rfl

/-- C6: an `f` record with more or fewer than three face-vertex tokens
fails with the unsupported-topology error, and a face it successfully
produces always has exactly three keys, with exactly three tokens
present. -/
theorem C6_triangles_only (ws : List String) (ami : Option Nat) :
    (ws.length ≠ 3 → handleFaceLine ws ami = .error .unsupportedTopology) ∧
    (∀ face, handleFaceLine ws ami = .ok face →
      ws.length = 3 ∧ face.indices.length = 3) := by
  rcases ws with _ | ⟨a, _ | ⟨b, _ | ⟨c, _ | ⟨d, rest⟩⟩⟩⟩
  · exact ⟨fun _ => rfl, fun face hf => Except.noConfusion hf⟩
  · exact ⟨fun _ => rfl, fun face hf => Except.noConfusion hf⟩
  · exact ⟨fun _ => rfl, fun face hf => Except.noConfusion hf⟩
  · refine ⟨fun hne => absurd rfl hne, fun face hf => ?_⟩
    replace hf : parse_face (some a) (some b) (some c) ami = .ok face := hf
    simp only [parse_face] at hf
    split at hf
    · obtain rfl := Except.ok.inj hf
      exact ⟨rfl, rfl⟩
    · exact Except.noConfusion hf
    · exact Except.noConfusion hf
    · exact Except.noConfusion hf
  · refine ⟨fun _ => ?_, fun face hf => ?_⟩
    · simp [handleFaceLine]
    · simp [handleFaceLine] at hf

/-- C6 witness: a four-token record fails, a three-token record yields a
three-key face. -/
theorem C6_witness :
    handleFaceLine [strOne, strTwo, strThree, strFour] none =
      .error .unsupportedTopology ∧
    [strOne, strTwo, strThree].length = 3 ∧
    (Face.mk [⟨1, none, none⟩, ⟨2, none, none⟩, ⟨3, none, none⟩] none).indices.length = 3 := by
  have h1 := (C6_triangles_only [strOne, strTwo, strThree, strFour] none).1 (by decide)
  have h2 := (C6_triangles_only [strOne, strTwo, strThree] none).2
    (Face.mk [⟨1, none, none⟩, ⟨2, none, none⟩, ⟨3, none, none⟩] none) rfl
  exact ⟨h1, h2.1, h2.2⟩

/-- C7 counterexample: the face-vertex token `1/x/2` has a present,
non-numeric texture field, yet parsing succeeds with the texture index
substituted as absent instead of failing with the malformed-number
error. -/
theorem C7_counterexample :
    parse_face_index tokenBadTexture = .ok ⟨1, none, some 2⟩ ∧
    parseU32 strX = none :=
  ⟨rfl, rfl⟩

/-- C7 amended: a position, normal or texture-coordinate component that
is present but fails to parse as `f32` makes the record fail with the
malformed-number error, and so does a face-vertex position index that
fails to parse as `u32`; but a face-vertex texture or normal index that
is present and fails to parse as `u32` is silently treated as absent
rather than failing. -/
theorem C7_amended (a b c : String) :
    ((parseF32 a = none ∨ parseF32 b = none ∨ parseF32 c = none) →
      parse_vertex_position (some a) (some b) (some c) = .error .malformedNumber ∧
      parse_vertex_normal (some a) (some b) (some c) = .error .malformedNumber) ∧
    ((parseF32 a = none ∨ parseF32 b = none) →
      parse_tex_coords (some a) (some b) = .error .malformedNumber) ∧
    (∀ p rest, splitOnSep slashChar a.toList = p :: rest →
      parseU32Chars p = none →
      parse_face_index a = .error .malformedNumber) ∧
    (∀ p t rest pv, splitOnSep slashChar a.toList = p :: t :: rest →
      parseU32Chars p = some pv → parseU32Chars t = none →
      parse_face_index a = .ok ⟨pv, none, (rest[0]?).bind parseU32Chars⟩) ∧
    (∀ p t n rest pv, splitOnSep slashChar a.toList = p :: t :: n :: rest →
      parseU32Chars p = some pv → parseU32Chars n = none →
      ∃ fi : FaceIndex, parse_face_index a = .ok fi ∧ fi.n_index = none) := by
  refine ⟨?_, ?_, ?_, ?_, ?_⟩
  · intro hor
    rcases ha : parseF32 a with _ | x <;> rcases hb : parseF32 b with _ | y <;>
      rcases hc : parseF32 c with _ | z <;>
      simp_all [parse_vertex_position, parse_vertex_normal]
  · intro hor
    rcases ha : parseF32 a with _ | x <;> rcases hb : parseF32 b with _ | y <;>
      simp_all [parse_tex_coords]
  · intro p rest hsplit hp
    simp only [String.toList] at hsplit
    simp [parse_face_index, String.toList, hsplit, Option.bind, hp]
  · intro p t rest pv hsplit hp ht
    simp only [String.toList] at hsplit
    by_cases hte : t = []
    · simp [parse_face_index, String.toList, hsplit, Option.bind, hp, hte]
    · simp [parse_face_index, String.toList, hsplit, Option.bind, hp, hte, ht]
  · intro p t n rest pv hsplit hp hn
    simp only [String.toList] at hsplit
    refine ⟨⟨pv, (if t = [] then none else parseU32Chars t), none⟩, ?_, rfl⟩
    simp [parse_face_index, String.toList, hsplit, Option.bind, hp, hn]

/-- C7 witness: the malformed-component failure, the malformed-position
failure, and the silent texture-index substitution, each at a concrete
token. -/
theorem C7_witness :
    parse_vertex_position (some strX) (some strOne) (some strTwo) =
      .error .malformedNumber ∧
    parse_face_index strX = .error .malformedNumber ∧
    parse_face_index tokenBadTexture = .ok ⟨1, none, some 2⟩ := by
  have h1 := ((C7_amended strX strOne strTwo).1 (Or.inl rfl)).1
  have h2 := (C7_amended strX strOne strTwo).2.2.1 (strX.toList) [] rfl rfl
  have h3 := (C7_amended tokenBadTexture strOne strTwo).2.2.2.1
    (strOne.toList) (strX.toList) [strTwo.toList] 1 rfl rfl rfl
  exact ⟨h1, h2, h3⟩

/-- C8: the GPU storage format is chosen exactly by channel count — one
channel to red, two to red-green, three to RGB, four to RGBA — and every
decodable image layout is one of these four, so the unsupported-format
failure is unreachable for decoded images. -/
theorem C8_texture_format (img : DynamicImage) :
    (img.channels = 1 ↔ textureFormat img = .RED) ∧
    (img.channels = 2 ↔ textureFormat img = .RG) ∧
    (img.channels = 3 ↔ textureFormat img = .RGB) ∧
    (img.channels = 4 ↔ textureFormat img = .RGBA) ∧
    (img.channels = 1 ∨ img.channels = 2 ∨ img.channels = 3 ∨ img.channels = 4) := by
  cases img <;> simp [DynamicImage.channels, textureFormat]

/-- A texture handle for the render fixtures. -/
def textureFixture : Texture := ⟨7⟩

/-- A mesh whose single material carries a diffuse texture. -/
def meshWithTexture : Mesh :=
  { vertices := [⟨⟨0, 0, 0⟩, ⟨0, 0, 1⟩, Vec2.zero⟩],
    indices := [0],
    materials := [⟨some textureFixture⟩],
    vao := 5, vbo := 6, ebo := 8 }

/-- A mesh with two materials, tripping the render assertion. -/
def meshTwoMaterials : Mesh :=
  { vertices := [⟨⟨0, 0, 0⟩, ⟨0, 0, 1⟩, Vec2.zero⟩],
    indices := [0],
    materials := [⟨none⟩, ⟨none⟩],
    vao := 5, vbo := 6, ebo := 8 }

/-- C9 counterexample: rendering a mesh that binds a diffuse texture,
starting from the neutral binding state, returns with the vertex array
unbound but with texture 7 still bound on the active unit — the mutated
texture binding is not restored to a neutral state before returning. -/
theorem C9_counterexample :
    Mesh.render meshWithTexture ⟨9, 0, 0⟩ = .ok ⟨9, 0, 7⟩ ∧
    (GLState.mk 9 0 7).boundTexture2D ≠ 0 :=
  ⟨rfl, by decide⟩

/-- C9 amended: on every exit path of the render operation the
vertex-array binding is restored to neutral — the assertion-failure exit
leaves the whole state untouched — but the texture binding of the active
unit is not restored: a bound diffuse texture stays bound on return. -/
theorem C9_amended (m : Mesh) (s : GLState) :
    (∀ s2, Mesh.render m s = .ok s2 → s2.boundVertexArray = 0) ∧
    (∀ s2, Mesh.render m s = .error s2 → s2 = s) := by
  constructor <;> intro s2 h <;> simp only [Mesh.render] at h
  · split at h
    · obtain rfl := Except.ok.inj h
      rfl
    · exact Except.noConfusion h
  · split at h
    · exact Except.noConfusion h
    · exact (Except.error.inj h).symm

/-- C9 witness: both exit paths at concrete meshes and states. -/
theorem C9_witness :
    (GLState.mk 9 0 7).boundVertexArray = 0 ∧
    GLState.mk 9 0 0 = GLState.mk 9 0 0 := by
  constructor
  · exact (C9_amended meshWithTexture ⟨9, 0, 0⟩).1 ⟨9, 0, 7⟩ rfl
  · exact (C9_amended meshTwoMaterials ⟨9, 0, 0⟩).2 ⟨9, 0, 0⟩ rfl
